import Mathlib

/-!
Verification development for the convolution-kernel core of
`src/scene-effect-2d.cpp` (glmark2's 2D effect scene).

The C++ code is shallowly embedded as follows:
* strings are `List Char`;
* `float`/`double` values are embedded as exact rationals `ℚ` (every
  arithmetic step exercised by the statements below is exact in binary
  floating point, e.g. sums of small integers and divisions by 2);
* `unsigned int` values are naturals, with `% 4294967296` (2^32) applied
  exactly where the C++ code stores into an `unsigned int`, and the
  `unsigned -> int` conversion modelled by `toInt32`;
* `std::vector` mutation is explicit state passing: functions take the
  vector's previous contents and return its new contents.
-/

namespace Effect2D

/-- UINT_MAX for 32-bit `unsigned int`, the sentinel initial value of `w`
in `parse_matrix` (scene-effect-2d.cpp line 181). -/
def UINT_MAX : Nat := 4294967295

/-- Fuel-indexed worker for `cppSplit`.  Each step is one iteration of the
`while(std::getline(ss, item, delim))` loop of `split`
(scene-effect-2d.cpp lines 151-159): `getline` reads characters up to the
delimiter or end-of-stream (the delimiter, when present, is consumed and
discarded), and fails — ending the loop with no item appended — exactly
when the stream is already at end-of-file.  The fuel argument only makes
the recursion structural; `cppSplit` supplies enough fuel for it never to
run out. -/
def splitFuel (delim : Char) : Nat → List Char → List (List Char)
  | _, [] => []
  | 0, l => [l]
  | fuel + 1, c :: rest =>
      (c :: rest).takeWhile (fun x => x != delim) ::
        splitFuel delim fuel (((c :: rest).dropWhile (fun x => x != delim)).drop 1)

/-- Embedding of `split` (scene-effect-2d.cpp lines 151-159): split a
string at a delimiter with `std::getline` semantics (an empty input yields
no item; a trailing delimiter does not yield a trailing empty item). -/
def cppSplit (delim : Char) (s : List Char) : List (List Char) :=
  splitFuel delim s.length s

/-- Numeric value of a list of decimal digit characters. -/
def digitsVal (l : List Char) : Nat :=
  l.foldl (fun a c => a * 10 + (c.toNat - 48)) 0

/-- Exponent-suffix scale factor for `readFloat`: an optional exponent
part of the form `e`/`E`, an optional sign, then digits.  A missing or
digit-less exponent contributes a factor of 1. -/
def expPart (s : List Char) : ℚ :=
  match s with
  | 'e' :: r => expVal r
  | 'E' :: r => expVal r
  | _ => 1
where
  /-- Value of the exponent body after `e`/`E`. -/
  expVal (r : List Char) : ℚ :=
    match r with
    | '-' :: t =>
        let ds := t.takeWhile Char.isDigit
        if ds = [] then 1 else ((10 : ℚ) ^ digitsVal ds)⁻¹
    | '+' :: t =>
        let ds := t.takeWhile Char.isDigit
        if ds = [] then 1 else (10 : ℚ) ^ digitsVal ds
    | _ =>
        let ds := r.takeWhile Char.isDigit
        if ds = [] then 1 else (10 : ℚ) ^ digitsVal ds

/-- Unsigned part of `readFloat`: integer digits, an optional fraction
after a decimal point, and an optional exponent.  When no digit is found
at all the extraction fails and the result defaults to 0. -/
def readUnsigned (s : List Char) : ℚ :=
  let ip := s.takeWhile Char.isDigit
  let r1 := s.dropWhile Char.isDigit
  let fp := match r1 with
            | '.' :: r => r.takeWhile Char.isDigit
            | _ => []
  let r2 := match r1 with
            | '.' :: r => r.dropWhile Char.isDigit
            | _ => r1
  if ip = [] ∧ fp = [] then 0
  else ((digitsVal ip : ℚ) + (digitsVal fp : ℚ) / (10 : ℚ) ^ fp.length) * expPart r2

/-- Model of `std::stringstream >> float` as used on each matrix element
(scene-effect-2d.cpp lines 207-210): skip whitespace, then parse an
optional sign followed by a decimal number; a failed extraction leaves the
zero-initialised default (the spec records this zero fallback for
malformed tokens as an open question; the claims below only exercise
well-formed decimal tokens).  Values are exact rationals; the claims only
exercise values exactly representable as `float`. -/
def readFloat (s : List Char) : ℚ :=
  let t := s.dropWhile Char.isWhitespace
  match t with
  | '-' :: r => - readUnsigned r
  | '+' :: r => readUnsigned r
  | _ => readUnsigned t

/-- One pass of the row loop of `parse_matrix` (scene-effect-2d.cpp lines
187-216).  State: the running `unsigned int w` (initially `UINT_MAX`) and
the contents of the caller's `filter` vector.  For each row: split it at
commas; if `w != UINT_MAX && elems.size() != w` fail, returning the state
as mutated so far; otherwise store `w = elems.size()` (an `unsigned int`
store, hence mod 2^32) and append every element's parsed value to
`filter`. -/
def parseRowsAux : List (List Char) → Nat → List ℚ → Bool × Nat × List ℚ
  | [], w, f => (true, w, f)
  | row :: rest, w, f =>
      let elems := cppSplit ',' row
      if w ≠ UINT_MAX ∧ elems.length ≠ w then (false, w, f)
      else parseRowsAux rest (elems.length % 4294967296) (f ++ elems.map readFloat)

/-- Embedding of `parse_matrix` (scene-effect-2d.cpp lines 176-222).
Arguments `filter`, `width`, `height` are the previous contents of the
by-reference parameters; the result is `(return value, filter, width,
height)` afterwards.  On success `width` receives the running `w` and
`height` receives `rows.size()` (stored into an `unsigned int`, hence mod
2^32); on failure the out-parameters keep their previous values, while
`filter` keeps whatever had already been pushed onto it. -/
def parse_matrix (str : List Char) (filter : List ℚ) (width height : Nat) :
    Bool × List ℚ × Nat × Nat :=
  let rows := cppSplit ';' str
  let r := parseRowsAux rows UINT_MAX filter
  if r.1 then (true, r.2.2, r.2.1, rows.length % 4294967296)
  else (false, r.2.2, width, height)

/-- Sum of the strictly positive weights: the zero-sum fallback loop of
`normalize` (scene-effect-2d.cpp lines 238-247). -/
def posSum (filter : List ℚ) : ℚ :=
  filter.foldl (fun a x => if 0 < x then a + x else a) 0

/-- Final value of the local `sum` in `normalize` (scene-effect-2d.cpp
lines 232-247): the plain left-fold sum, replaced by the positive-only sum
when its absolute value is below the fixed epsilon `0.00000001`. -/
def effSum (filter : List ℚ) : ℚ :=
  let sum := filter.foldl (· + ·) 0
  if |sum| < 1 / 100000000 then posSum filter else sum

/-- Embedding of `normalize` (scene-effect-2d.cpp lines 229-263): if the
(fallback-adjusted) sum is exactly zero, return leaving the filter
untouched; otherwise divide every weight by it in place. -/
def normalize (filter : List ℚ) : List ℚ :=
  if effSum filter = 0 then filter
  else filter.map (fun x => x / effSum filter)

/-- Two's-complement reading of a 32-bit unsigned value: the C++
`unsigned int -> int` conversion applied when the subtraction results are
stored into `int x` and `int y` in `calc_offset`. -/
def toInt32 (n : Nat) : Int :=
  if n % 4294967296 < 2147483648 then ((n % 4294967296 : Nat) : Int)
  else ((n % 4294967296 : Nat) : Int) - 4294967296

/-- Unsigned 32-bit subtraction `a - b` (both arguments reduced mod 2^32),
as performed by `unsigned int` arithmetic. -/
def usub32 (a b : Nat) : Nat :=
  (a % 4294967296 + (4294967296 - b % 4294967296)) % 4294967296

/-- Embedding of `calc_offset` (scene-effect-2d.cpp lines 55-64):
`int x = i % width - (width - 1) / 2;` and
`int y = -(i / width - (height - 1) / 2);`, all arithmetic in `unsigned
int`, the results converted to `int`.  The C++ function returns the pair
as a `vec2` of `float`; the conversion `int -> float` is exact for every
magnitude reachable here below 2^24, and the embedding keeps the exact
integers. -/
def calc_offset (i width height : Nat) : Int × Int :=
  (toInt32 (usub32 (i % width) ((width - 1) / 2)),
   toInt32 (usub32 0 (usub32 (i / width) ((height - 1) / 2))))

/-- Decimal digit characters of a natural number, as printed by
`operator<<`. -/
def natRepr (n : Nat) : List Char := Nat.toDigits 10 n

/-- Fixed-notation rendering of a nonnegative rational with `prec` digits
after the decimal point, rounding to nearest: models
`stringstream << std::fixed` output (with `precision(prec)`) for the
nonnegative case. -/
def formatFixedNN (prec : Nat) (q : ℚ) : List Char :=
  let n : Nat := (Int.floor (q * (10 : ℚ) ^ prec + 1 / 2)).toNat
  natRepr (n / 10 ^ prec) ++ '.' ::
    (List.replicate (prec - (natRepr (n % 10 ^ prec)).length) '0' ++
      natRepr (n % 10 ^ prec))

/-- Fixed-notation rendering of a rational, negative values prefixed with
a minus sign: models `std::fixed` stream output of a `float` value. -/
def formatFixed (prec : Nat) (q : ℚ) : List Char :=
  if q < 0 then '-' :: formatFixedNN prec (-q) else formatFixedNN prec q

/-- Modelled from the spec: `ShaderSource::add_const` (shader-source.h is
not part of src/), which appends one named floating-point constant
declaration to the shader source being built (spec: "Defines two named
constants in the template scope"). -/
def constLine (name : List Char) (v : ℚ) : List Char :=
  ( "const float ").data ++ name ++ ( " = ").data ++ formatFixed 6 v ++ ( ";\n").data

/-- One coefficient-constant declaration emitted into `ss_def`
(scene-effect-2d.cpp lines 124-125): `"const float Filter" << i << " = "
<< *iter << ";" << std::endl`, with `ss_def` in `std::fixed` mode at the
default precision 6. -/
def filterDef (i : Nat) (w : ℚ) : List Char :=
  ( "const float Filter").data ++ natRepr i ++ ( " = ").data ++
    formatFixed 6 w ++ ( ";\n").data

/-- One convolution term emitted into `ss_convolution`
(scene-effect-2d.cpp lines 128-131), with `ss_convolution` in `std::fixed`
mode at precision 1. -/
def convTerm (w h i : Nat) : List Char :=
  ( "texture2D(Texture0, TextureCoord + vec2(").data ++
    formatFixed 1 ((calc_offset i w h).1 : ℚ) ++ ( " * TextureStepX, ").data ++
    formatFixed 1 ((calc_offset i w h).2 : ℚ) ++
    ( " * TextureStepY)) * Filter").data ++ natRepr i

/-- The coefficient loop of `create_convolution_fragment_shader`
(scene-effect-2d.cpp lines 117-134), iterating from index `i`: the first
component accumulates `ss_def`, the second accumulates the part of
`ss_convolution` after `"result = "`; a `" +" << std::endl` separator is
appended after every term except the last. -/
def convLoop (w h : Nat) : List ℚ → Nat → List Char × List Char
  | [], _ => ([], [])
  | x :: rest, i =>
      let p := convLoop w h rest (i + 1)
      (filterDef i x ++ p.1,
       convTerm w h i ++ (if rest = [] then [] else ( " +\n").data) ++ p.2)

/-- Fuel-indexed worker for `listReplace`: replace each non-overlapping
occurrence of `pat`, scanning left to right and resuming after the
replacement text. -/
def replFuel (pat rep : List Char) : Nat → List Char → List Char
  | _, [] => []
  | 0, l => l
  | fuel + 1, c :: rest =>
      if pat ≠ [] ∧ pat.isPrefixOf (c :: rest) then
        rep ++ replFuel pat rep fuel ((c :: rest).drop pat.length)
      else c :: replFuel pat rep fuel rest

/-- Modelled from the spec: `ShaderSource::replace` (shader-source.h is
not part of src/), which substitutes the replacement text for the named
placeholder token in the shader source (spec: "substituted into the
template by replacing a named placeholder token"). -/
def listReplace (pat rep l : List Char) : List Char :=
  replFuel pat rep l.length l

/-- Modelled from the spec: the external fragment-shader template resource
(`data/shaders/effect-2d-convolution.frag`, not part of src/): opaque
shader text containing the `$CONVOLUTION$` placeholder token marking where
the generated accumulation expression is injected. -/
def effectTemplate : List Char :=
  ( "uniform sampler2D Texture0;\nvarying vec2 TextureCoord;\nvec4 result;\n$CONVOLUTION$\ngl_FragColor = result;\n").data

/-- Embedding of `create_convolution_fragment_shader` (scene-effect-2d.cpp
lines 91-142).  The shader template loaded from file by `ShaderSource` is
passed explicitly as `tmpl`.  Steps, in source order: the defensive size
check `width * height != array.size()` (an `unsigned int` product, hence
mod 2^32, compared against the `size_t` length) returning `""` on
mismatch; `add_const` of the two texture steps `1.0f/800.0f` and
`1.0f/600.0f`; the coefficient loop; `source.add(ss_def.str())`; and
`source.replace("$CONVOLUTION$", ss_convolution.str())` where
`ss_convolution` is `"result = "`, the accumulated terms, then `";\n"`. -/
def create_convolution_fragment_shader (tmpl : List Char) (array : List ℚ)
    (width height : Nat) : List Char :=
  if (width * height) % 4294967296 ≠ array.length then []
  else
    listReplace ( "$CONVOLUTION$").data
      (( "result = ").data ++ (convLoop width height array 0).2 ++ ( ";\n").data)
      (tmpl ++ constLine ( "TextureStepX").data (1 / 800) ++
        constLine ( "TextureStepY").data (1 / 600) ++
        (convLoop width height array 0).1)

/-- Encoding of a matrix as the option string grammar `row (";" row)*`,
`row = elem ("," elem)*`: used to state what a well-formed matrix string
is. -/
def encodeMatrix (rows : List (List (List Char))) : List Char :=
  List.intercalate ( ";").data (rows.map fun r => List.intercalate ( ",").data r)

/-- Per-row element counts of a matrix string, as `parse_matrix` computes
them: split at semicolons, then count the comma-separated elements of each
row. -/
def rowCounts (str : List Char) : List Nat :=
  (cppSplit ';' str).map fun r => (cppSplit ',' r).length

/-! Helper lemmas about `cppSplit` and `List.intercalate`. -/

/-- Dropping a while-prefix never lengthens a list. -/
theorem length_dropWhile_le (p : Char → Bool) (l : List Char) :
    (l.dropWhile p).length ≤ l.length := by
  induction l with
  | nil => simp
  | cons c t ih =>
      rw [List.dropWhile_cons]
      split
      · exact Nat.le_succ_of_le ih
      · simp

/-- The fuel argument of `splitFuel` is irrelevant once it covers the
string length. -/
theorem splitFuel_fuel_eq (d : Char) :
    ∀ (f1 : Nat) (f2 : Nat) (s : List Char), s.length ≤ f1 → s.length ≤ f2 →
      splitFuel d f1 s = splitFuel d f2 s := by
  intro f1
  induction f1 with
  | zero =>
      intro f2 s h1 _
      have hs : s = [] := List.eq_nil_of_length_eq_zero (Nat.le_zero.mp h1)
      subst hs
      cases f2 <;> rfl
  | succ f ih =>
      intro f2 s h1 h2
      cases s with
      | nil => cases f2 <;> rfl
      | cons c rest =>
          cases f2 with
          | zero => simp at h2
          | succ f2' =>
              simp only [splitFuel]
              congr 1
              apply ih
              · have := length_dropWhile_le (fun x => x != d) (c :: rest)
                rw [List.length_drop]
                simp only [List.length_cons] at this h1 ⊢
                omega
              · have := length_dropWhile_le (fun x => x != d) (c :: rest)
                rw [List.length_drop]
                simp only [List.length_cons] at this h2 ⊢
                omega

/-- One `getline` step of `cppSplit` on a nonempty string. -/
theorem cppSplit_cons (d : Char) (s : List Char) (hne : s ≠ []) :
    cppSplit d s =
      s.takeWhile (fun x => x != d) ::
        cppSplit d ((s.dropWhile (fun x => x != d)).drop 1) := by
  obtain ⟨c, rest, rfl⟩ := List.exists_cons_of_ne_nil hne
  show splitFuel d (rest.length + 1) (c :: rest) = _
  simp only [splitFuel]
  congr 1
  apply splitFuel_fuel_eq
  · have := length_dropWhile_le (fun x => x != d) (c :: rest)
    rw [List.length_drop]
    simp only [List.length_cons] at this ⊢
    omega
  · exact Nat.le_refl _

/-- A `takeWhile` for the split predicate consumes exactly the
delimiter-free prefix. -/
theorem takeWhile_bne_append (d : Char) (p t : List Char)
    (hp : ∀ c ∈ p, c ≠ d) :
    (p ++ d :: t).takeWhile (fun x => x != d) = p := by
  induction p with
  | nil => simp [List.takeWhile_cons]
  | cons c q ih =>
      have hc : c ≠ d := hp c (by simp)
      simp only [List.cons_append, List.takeWhile_cons, bne_iff_ne, ne_eq, hc,
        not_false_eq_true, if_true, reduceIte]
      rw [ih fun x hx => hp x (by simp [hx])]

/-- A `dropWhile` for the split predicate stops at the first delimiter. -/
theorem dropWhile_bne_append (d : Char) (p t : List Char)
    (hp : ∀ c ∈ p, c ≠ d) :
    (p ++ d :: t).dropWhile (fun x => x != d) = d :: t := by
  induction p with
  | nil => simp [List.dropWhile_cons]
  | cons c q ih =>
      have hc : c ≠ d := hp c (by simp)
      simp only [List.cons_append, List.dropWhile_cons, bne_iff_ne, ne_eq, hc,
        not_false_eq_true, if_true, reduceIte]
      exact ih fun x hx => hp x (by simp [hx])

/-- A delimiter-free list is its own while-prefix. -/
theorem takeWhile_bne_all (d : Char) (p : List Char) (hp : ∀ c ∈ p, c ≠ d) :
    p.takeWhile (fun x => x != d) = p := by
  induction p with
  | nil => rfl
  | cons c q ih =>
      have hc : c ≠ d := hp c (by simp)
      simp only [List.takeWhile_cons, bne_iff_ne, ne_eq, hc, not_false_eq_true,
        if_true, reduceIte]
      rw [ih fun x hx => hp x (by simp [hx])]

/-- Dropping the while-prefix of a delimiter-free list leaves nothing. -/
theorem dropWhile_bne_all (d : Char) (p : List Char) (hp : ∀ c ∈ p, c ≠ d) :
    p.dropWhile (fun x => x != d) = [] := by
  induction p with
  | nil => rfl
  | cons c q ih =>
      have hc : c ≠ d := hp c (by simp)
      simp only [List.dropWhile_cons, bne_iff_ne, ne_eq, hc, not_false_eq_true,
        if_true, reduceIte]
      exact ih fun x hx => hp x (by simp [hx])

/-- `cppSplit` peels one delimiter-free part before a delimiter. -/
theorem cppSplit_append (d : Char) (p t : List Char) (hp : ∀ c ∈ p, c ≠ d) :
    cppSplit d (p ++ d :: t) = p :: cppSplit d t := by
  rw [cppSplit_cons d _ (by simp), takeWhile_bne_append d p t hp,
    dropWhile_bne_append d p t hp]
  simp

/-- `cppSplit` of a nonempty delimiter-free string is that string alone. -/
theorem cppSplit_single (d : Char) (p : List Char) (hne : p ≠ [])
    (hp : ∀ c ∈ p, c ≠ d) : cppSplit d p = [p] := by
  rw [cppSplit_cons d p hne, takeWhile_bne_all d p hp, dropWhile_bne_all d p hp]
  rfl

/-- Unfolding `intercalate` over a two-or-more-element list. -/
theorem intercalate_cons_cons (s a b : List Char) (l : List (List Char)) :
    List.intercalate s (a :: b :: l) = a ++ s ++ List.intercalate s (b :: l) := by
  simp [List.intercalate, List.intersperse]

/-- Unfolding `intercalate` over a one-element list. -/
theorem intercalate_single (s a : List Char) : List.intercalate s [a] = a := by
  simp [List.intercalate]

/-- Every character of an intercalation comes from a part or from the
separator. -/
theorem mem_intercalate (s : List Char) (parts : List (List Char)) (c : Char)
    (h : c ∈ List.intercalate s parts) : (∃ p ∈ parts, c ∈ p) ∨ c ∈ s := by
  induction parts with
  | nil => simp [List.intercalate] at h
  | cons p ps ih =>
      cases ps with
      | nil =>
          rw [intercalate_single] at h
          exact Or.inl ⟨p, by simp, h⟩
      | cons q ps' =>
          rw [intercalate_cons_cons] at h
          rcases List.mem_append.mp h with h1 | h2
          · rcases List.mem_append.mp h1 with h3 | h4
            · exact Or.inl ⟨p, by simp, h3⟩
            · exact Or.inr h4
          · rcases ih h2 with ⟨r, hr, hcr⟩ | hs
            · exact Or.inl ⟨r, by simp [hr], hcr⟩
            · exact Or.inr hs

/-- An intercalation of nonempty parts is nonempty. -/
theorem intercalate_ne_nil (s : List Char) (p : List Char)
    (l : List (List Char)) (hp : p ≠ []) :
    List.intercalate s (p :: l) ≠ [] := by
  cases l with
  | nil => rw [intercalate_single]; exact hp
  | cons q l' =>
      rw [intercalate_cons_cons]
      simp [List.append_eq_nil, hp]

/-- Round trip: `cppSplit` undoes `intercalate` for nonempty,
delimiter-free parts. -/
theorem cppSplit_intercalate (d : Char) (parts : List (List Char))
    (hne : ∀ p ∈ parts, p ≠ []) (hd : ∀ p ∈ parts, ∀ c ∈ p, c ≠ d) :
    cppSplit d (List.intercalate [d] parts) = parts := by
  induction parts with
  | nil => rfl
  | cons p ps ih =>
      cases ps with
      | nil =>
          rw [intercalate_single]
          exact cppSplit_single d p (hne p (by simp)) (hd p (by simp))
      | cons q ps' =>
          rw [intercalate_cons_cons]
          have : p ++ [d] ++ List.intercalate [d] (q :: ps') =
              p ++ d :: List.intercalate [d] (q :: ps') := by simp
          rw [this, cppSplit_append d p _ (hd p (by simp))]
          rw [ih (fun r hr => hne r (by simp [hr]))
            (fun r hr => hd r (by simp [hr]))]

/-! Helper lemmas about left-fold sums of rationals. -/

/-- Left-fold summation from an arbitrary accumulator splits off the
accumulator. -/
theorem foldl_add_eq (l : List ℚ) (a : ℚ) :
    l.foldl (· + ·) a = a + l.foldl (· + ·) 0 := by
  induction l generalizing a with
  | nil => simp
  | cons x t ih =>
      simp only [List.foldl_cons]
      rw [ih (a + x), ih (0 + x)]
      ring

/-- Dividing every summand divides the left-fold sum. -/
theorem foldl_map_div (l : List ℚ) (s : ℚ) :
    (l.map fun x => x / s).foldl (· + ·) 0 = l.foldl (· + ·) 0 / s := by
  induction l with
  | nil => simp
  | cons x t ih =>
      simp only [List.map_cons, List.foldl_cons]
      rw [foldl_add_eq _ (0 + x / s), foldl_add_eq _ (0 + x), ih, add_div]
      ring

/-- Claim C3: for every kernel whose weight sum has absolute value below
the fixed epsilon 1e-8, `normalize` divides every weight by the sum of
only the strictly positive weights, whenever that positive-only sum is
nonzero. -/
theorem c3_zero_sum_fallback (f : List ℚ)
    (hz : |f.foldl (· + ·) 0| < 1 / 100000000) (hp : posSum f ≠ 0) :
    normalize f = f.map fun x => x / posSum f := by
  have he : effSum f = posSum f := by
    simp only [effSum]
    rw [if_pos hz]
  simp only [normalize, he]
  rw [if_neg hp]

/-- Witness for C3: `[1,-1,1,-1]` sums to zero, normalizes by the
positive-only sum 2 to `[0.5,-0.5,0.5,-0.5]`, after which the strictly
positive weights sum to 1. -/
theorem c3_witness :
    |([1, -1, 1, -1] : List ℚ).foldl (· + ·) 0| < 1 / 100000000 ∧
    posSum [1, -1, 1, -1] ≠ 0 ∧
    normalize [1, -1, 1, -1] = [1/2, -1/2, 1/2, -1/2] ∧
    posSum (normalize [1, -1, 1, -1]) = 1 := by
  have hz : |([1, -1, 1, -1] : List ℚ).foldl (· + ·) 0| < 1 / 100000000 := by
    norm_num [List.foldl]
  have hp : posSum [1, -1, 1, -1] ≠ 0 := by norm_num [posSum, List.foldl]
  have h := c3_zero_sum_fallback [1, -1, 1, -1] hz hp
  have hn : normalize [1, -1, 1, -1] = [1/2, -1/2, 1/2, -1/2] := by
    rw [h]
    norm_num [posSum, List.foldl]
  exact ⟨hz, hp, hn, by rw [hn]; norm_num [posSum, List.foldl]⟩

/-- Claim C4: for every kernel whose weight sum has absolute value at
least epsilon, `normalize` divides each weight in place by that sum, and
afterwards the weights sum to exactly 1. -/
theorem c4_normalize_sums_to_one (f : List ℚ)
    (hs : 1 / 100000000 ≤ |f.foldl (· + ·) 0|) :
    normalize f = (f.map fun x => x / f.foldl (· + ·) 0) ∧
    (normalize f).foldl (· + ·) 0 = 1 := by
  have hne : f.foldl (· + ·) 0 ≠ 0 := by
    intro h0
    rw [h0] at hs
    norm_num at hs
  have he : effSum f = f.foldl (· + ·) 0 := by
    simp only [effSum]
    rw [if_neg (not_lt.mpr hs)]
  have h1 : normalize f = f.map fun x => x / f.foldl (· + ·) 0 := by
    simp only [normalize, he]
    rw [if_neg hne]
  refine ⟨h1, ?_⟩
  rw [h1, foldl_map_div, div_self hne]

/-- Witness for C4: `[2]` has sum 2 ≥ epsilon and normalizes to `[1]`,
which sums to 1. -/
theorem c4_witness :
    normalize [(2 : ℚ)] = [1] ∧ (normalize [(2 : ℚ)]).foldl (· + ·) 0 = 1 := by
  have h := c4_normalize_sums_to_one [2] (by norm_num [List.foldl])
  exact ⟨by rw [h.1]; norm_num [List.foldl], h.2⟩

/-- Claim C8: whenever the divisor `normalize` would use (the plain sum,
or the positive-only sum after the zero-sum fallback) is exactly zero, the
filter is returned unchanged: normalization is a total no-op, never a
division by zero. -/
theorem c8_zero_divisor_noop (f : List ℚ) (h : effSum f = 0) :
    normalize f = f := by
  simp only [normalize]
  rw [if_pos h]

/-- Witness for C8: the all-zero kernel has a zero divisor and is left
exactly unchanged. -/
theorem c8_witness :
    effSum [(0 : ℚ), 0, 0] = 0 ∧ normalize [(0 : ℚ), 0, 0] = [0, 0, 0] := by
  have he : effSum [(0 : ℚ), 0, 0] = 0 := by
    norm_num [effSum, posSum, List.foldl]
  exact ⟨he, c8_zero_divisor_noop [0, 0, 0] he⟩

/-- Claim C2: for every linear index `i < width * height` (widths and
heights being 32-bit unsigned values), `calc_offset` returns
`(col - center.x, -(row - center.y))` with `col = i mod width`,
`row = i div width` and `center = ((width-1) div 2, (height-1) div 2)` in
integer division: the y component is negated relative to row growth. -/
theorem c2_calc_offset_eq (i w h : Nat) (hw : w < 4294967296)
    (hh : h < 4294967296) (hi : i < w * h) :
    calc_offset i w h =
      (((i % w : Nat) : Int) - (((w - 1) / 2 : Nat) : Int),
       -(((i / w : Nat) : Int) - (((h - 1) / 2 : Nat) : Int))) := by
  have hw0 : 0 < w := by
    rcases Nat.eq_zero_or_pos w with h0 | h0
    · subst h0
      simp at hi
    · exact h0
  have ha : i % w < w := Nat.mod_lt _ hw0
  have hr : i / w < h := Nat.div_lt_of_lt_mul hi
  simp only [calc_offset, usub32, toInt32, Prod.mk.injEq]
  generalize hA : i % w = a
  generalize hR : i / w = r
  rw [hA] at ha
  rw [hR] at hr
  constructor
  · split_ifs <;> omega
  · split_ifs <;> omega

/-- Witness for C2: in a 3×3 kernel the center index 4 maps to offset
`(0, 0)` and the top-left index 0 maps to `(-1, 1)`. -/
theorem c2_witness :
    calc_offset 4 3 3 = (0, 0) ∧ calc_offset 0 3 3 = (-1, 1) := by
  have h1 := c2_calc_offset_eq 4 3 3 (by decide) (by decide) (by decide)
  have h2 := c2_calc_offset_eq 0 3 3 (by decide) (by decide) (by decide)
  exact ⟨by rw [h1]; decide, by rw [h2]; decide⟩

/-! Parsing: structure of `parseRowsAux` and `parse_matrix`. -/

/-- On rows of a uniform element count `w < 2^32`, the row loop succeeds,
ends with running width `w`, and appends all parsed elements in row-major
order. -/
theorem parseRowsAux_uniform (w : Nat) (hwlt : w < 4294967296) :
    ∀ (rs : List (List Char)) (w0 : Nat) (f : List ℚ),
      (∀ r ∈ rs, (cppSplit ',' r).length = w) → (w0 = UINT_MAX ∨ w0 = w) →
      rs ≠ [] →
      parseRowsAux rs w0 f =
        (true, w, f ++ (rs.map fun r => (cppSplit ',' r).map readFloat).flatten) := by
  intro rs
  induction rs with
  | nil => intro w0 f _ _ hne; exact absurd rfl hne
  | cons row rest ih =>
      intro w0 f hcount hw0 _
      have hc : (cppSplit ',' row).length = w := hcount row (by simp)
      have hcond : ¬(w0 ≠ UINT_MAX ∧ (cppSplit ',' row).length ≠ w0) := by
        rcases hw0 with h | h
        · simp [h]
        · simp [h, hc]
      simp only [parseRowsAux]
      rw [if_neg hcond, hc, Nat.mod_eq_of_lt hwlt]
      cases rest with
      | nil => simp [parseRowsAux]
      | cons r2 rest' =>
          rw [ih w (f ++ (cppSplit ',' row).map readFloat)
            (fun r hr => hcount r (List.mem_cons_of_mem _ hr)) (Or.inr rfl)
            (by simp)]
          simp [List.append_assoc]

/-- Claim C1: every well-formed matrix string — rows of nonempty,
delimiter-free element tokens, all rows of the same element count `w` —
parses successfully, with `width` = elements-per-row, `height` = number of
rows, and the parsed values appended in row-major order (the bounds
`w < 2^32` and `rows.length < 2^32` reflect the `unsigned int` type of the
out-parameters). -/
theorem c1_parse_wellformed (rows : List (List (List Char))) (w : Nat)
    (hne : rows ≠ []) (hw0 : 0 < w) (hwlt : w < 4294967296)
    (hrows : rows.length < 4294967296)
    (hlen : ∀ r ∈ rows, r.length = w)
    (htok : ∀ r ∈ rows, ∀ t ∈ r, t ≠ [] ∧ ∀ c ∈ t, c ≠ ';' ∧ c ≠ ',')
    (f0 : List ℚ) (wIn hIn : Nat) :
    parse_matrix (encodeMatrix rows) f0 wIn hIn =
      (true, f0 ++ (rows.map fun r => r.map readFloat).flatten, w, rows.length) := by
  have hrowne : ∀ r ∈ rows, r ≠ [] := by
    intro r hr h0
    have := hlen r hr
    rw [h0] at this
    simp at this
    omega
  have hrowstr_ne : ∀ r ∈ rows, List.intercalate [','] r ≠ [] := by
    intro r hr
    obtain ⟨t, r', rfl⟩ := List.exists_cons_of_ne_nil (hrowne r hr)
    exact intercalate_ne_nil [','] t r' ((htok _ hr t (by simp)).1)
  have hrowstr_nosemi : ∀ r ∈ rows, ∀ c ∈ List.intercalate [','] r, c ≠ ';' := by
    intro r hr c hc
    rcases mem_intercalate [','] r c hc with ⟨t, ht, hct⟩ | hcs
    · exact ((htok r hr t ht).2 c hct).1
    · simp at hcs
      subst hcs
      decide
  have hsplit : cppSplit ';' (encodeMatrix rows) =
      rows.map fun r => List.intercalate [','] r := by
    show cppSplit ';'
        (List.intercalate [';'] (rows.map fun r => List.intercalate [','] r)) = _
    apply cppSplit_intercalate
    · intro p hp
      rcases List.mem_map.mp hp with ⟨r, hr, rfl⟩
      exact hrowstr_ne r hr
    · intro p hp
      rcases List.mem_map.mp hp with ⟨r, hr, rfl⟩
      exact hrowstr_nosemi r hr
  have hrowsplit : ∀ r ∈ rows, cppSplit ',' (List.intercalate [','] r) = r :=
    fun r hr =>
      cppSplit_intercalate ',' r (fun t ht => (htok r hr t ht).1)
        (fun t ht c hc => ((htok r hr t ht).2 c hc).2)
  have haux := parseRowsAux_uniform w hwlt
      (rows.map fun r => List.intercalate [','] r) UINT_MAX f0
      (by
        intro rstr hrstr
        rcases List.mem_map.mp hrstr with ⟨r, hr, rfl⟩
        rw [hrowsplit r hr]
        exact hlen r hr)
      (Or.inl rfl)
      (by simp [hne])
  simp only [parse_matrix]
  rw [hsplit, haux]
  have hflat : ((rows.map fun r => List.intercalate [','] r).map
      fun r => (cppSplit ',' r).map readFloat).flatten =
      (rows.map fun r => r.map readFloat).flatten := by
    rw [List.map_map]
    congr 1
    apply List.map_congr_left
    intro r hr
    simp only [Function.comp]
    rw [hrowsplit r hr]
  simp only [List.length_map]
  rw [Nat.mod_eq_of_lt hrows, hflat]
  simp

/-- The success flag of `parse_matrix` is the success flag of its row
loop. -/
theorem parse_matrix_fst (str : List Char) (f : List ℚ) (wIn hIn : Nat) :
    (parse_matrix str f wIn hIn).1 =
      (parseRowsAux (cppSplit ';' str) UINT_MAX f).1 := by
  simp only [parse_matrix]
  cases h : (parseRowsAux (cppSplit ';' str) UINT_MAX f).1 <;> simp [h]

/-- Starting from a non-sentinel running width, the row loop fails exactly
when some row count differs from it (all counts below the sentinel). -/
theorem parseRowsAux_false_iff :
    ∀ (rs : List (List Char)) (w0 : Nat) (f : List ℚ), w0 < UINT_MAX →
      (∀ r ∈ rs, (cppSplit ',' r).length < UINT_MAX) →
      ((parseRowsAux rs w0 f).1 = false ↔
        ∃ r ∈ rs, (cppSplit ',' r).length ≠ w0) := by
  intro rs
  induction rs with
  | nil => intro w0 f _ _; simp [parseRowsAux]
  | cons row rest ih =>
      intro w0 f hw0 hb
      have hcrow : (cppSplit ',' row).length < UINT_MAX := hb row (by simp)
      by_cases hc : (cppSplit ',' row).length = w0
      · have hcond : ¬(w0 ≠ UINT_MAX ∧ (cppSplit ',' row).length ≠ w0) := by
          simp [hc]
        simp only [parseRowsAux]
        rw [if_neg hcond]
        have hmod : (cppSplit ',' row).length % 4294967296 = w0 := by
          rw [Nat.mod_eq_of_lt (hcrow.trans (by decide)), hc]
        rw [hmod, ih w0 _ hw0 (fun r hr => hb r (by simp [hr]))]
        constructor
        · rintro ⟨r, hr, hne⟩
          exact ⟨r, by simp [hr], hne⟩
        · rintro ⟨r, hr, hne⟩
          rcases (by simpa using hr : r = row ∨ r ∈ rest) with rfl | hr'
          · exact absurd hc hne
          · exact ⟨r, hr', hne⟩
      · have hcond : w0 ≠ UINT_MAX ∧ (cppSplit ',' row).length ≠ w0 :=
          ⟨by omega, hc⟩
        simp only [parseRowsAux]
        rw [if_pos hcond]
        exact iff_of_true rfl ⟨row, by simp, hc⟩

/-- Claim C5: `parse_matrix` fails exactly when some row's element count
differs from the first row's (all counts below the `UINT_MAX` sentinel,
which the `unsigned int` running width uses as its initial marker). -/
theorem c5_parse_fails_iff (str : List Char) (f0 : List ℚ) (wIn hIn : Nat)
    (hb : ∀ c ∈ rowCounts str, c < UINT_MAX) :
    ((parse_matrix str f0 wIn hIn).1 = false ↔
      ∃ c ∈ rowCounts str, c ≠ (rowCounts str).headI) := by
  rw [parse_matrix_fst]
  cases hrows : cppSplit ';' str with
  | nil => simp [parseRowsAux, rowCounts, hrows]
  | cons row rest =>
      have hbrow : (cppSplit ',' row).length < UINT_MAX := by
        apply hb
        simp [rowCounts, hrows]
      simp only [parseRowsAux]
      rw [if_neg (by simp)]
      rw [Nat.mod_eq_of_lt (hbrow.trans (by decide))]
      rw [parseRowsAux_false_iff rest _ _ hbrow
        (fun r hr => by
          apply hb
          simp only [rowCounts, hrows, List.map_cons, List.mem_cons]
          exact Or.inr (List.mem_map.mpr ⟨r, hr, rfl⟩))]
      simp only [rowCounts, hrows, List.map_cons, List.headI]
      constructor
      · rintro ⟨r, hr, hne⟩
        exact ⟨(cppSplit ',' r).length,
          List.mem_cons.mpr (Or.inr (List.mem_map.mpr ⟨r, hr, rfl⟩)), hne⟩
      · rintro ⟨c, hc, hne⟩
        rcases List.mem_cons.mp hc with rfl | hc'
        · exact absurd rfl hne
        · rcases List.mem_map.mp hc' with ⟨r, hr, rfl⟩
          exact ⟨r, hr, hne⟩

/-- The row loop only ever appends to the caller's filter vector. -/
theorem parseRowsAux_extends :
    ∀ (rs : List (List Char)) (w0 : Nat) (f : List ℚ),
      ∃ e, (parseRowsAux rs w0 f).2.2 = f ++ e := by
  intro rs
  induction rs with
  | nil => intro w0 f; exact ⟨[], by simp [parseRowsAux]⟩
  | cons row rest ih =>
      intro w0 f
      simp only [parseRowsAux]
      split
      · exact ⟨[], by simp⟩
      · obtain ⟨e, he⟩ := ih _ (f ++ (cppSplit ',' row).map readFloat)
        exact ⟨(cppSplit ',' row).map readFloat ++ e, by
          rw [he, List.append_assoc]⟩

/-- Amended C6: when `parse_matrix` fails, the `width`/`height`
out-parameters keep their previous values and no success is signalled, but
the caller-supplied weight vector retains the elements already parsed from
the rows before the mismatch (it is extended, not restored). -/
theorem c6_amended_state_on_error (str : List Char) (f0 : List ℚ)
    (wIn hIn : Nat) (h : (parse_matrix str f0 wIn hIn).1 = false) :
    (parse_matrix str f0 wIn hIn).2.2.1 = wIn ∧
    (parse_matrix str f0 wIn hIn).2.2.2 = hIn ∧
    ∃ extra, (parse_matrix str f0 wIn hIn).2.1 = f0 ++ extra := by
  have hfst := parse_matrix_fst str f0 wIn hIn
  rw [h] at hfst
  have hb : (parseRowsAux (cppSplit ';' str) UINT_MAX f0).1 = false := hfst.symm
  simp only [parse_matrix]
  rw [if_neg (by simp [hb])]
  exact ⟨rfl, rfl, by simpa using parseRowsAux_extends (cppSplit ';' str) UINT_MAX f0⟩

/-- Concrete evaluation of `readFloat` on the token `"0"`. -/
theorem readFloat_zero : readFloat ['0'] = 0 := by
  have h1 : List.dropWhile Char.isWhitespace ['0'] = ['0'] := by decide
  simp only [readFloat, h1]
  split
  · rename_i r heq
    injection heq with hc _
    exact absurd hc (by decide)
  · rename_i r heq
    injection heq with hc _
    exact absurd hc (by decide)
  · have hip : List.takeWhile Char.isDigit ['0'] = ['0'] := by decide
    have hdr : List.dropWhile Char.isDigit ['0'] = [] := by decide
    simp only [readUnsigned, hip, hdr]
    have hd : digitsVal ['0'] = 0 := by decide
    have hd0 : digitsVal [] = 0 := by decide
    norm_num [hd, hd0, expPart]

/-- Concrete evaluation of `readFloat` on the token `"1"`. -/
theorem readFloat_one : readFloat ['1'] = 1 := by
  have h1 : List.dropWhile Char.isWhitespace ['1'] = ['1'] := by decide
  simp only [readFloat, h1]
  split
  · rename_i r heq
    injection heq with hc _
    exact absurd hc (by decide)
  · rename_i r heq
    injection heq with hc _
    exact absurd hc (by decide)
  · have hip : List.takeWhile Char.isDigit ['1'] = ['1'] := by decide
    have hdr : List.dropWhile Char.isDigit ['1'] = [] := by decide
    simp only [readUnsigned, hip, hdr]
    have hd : digitsVal ['1'] = 1 := by decide
    have hd0 : digitsVal [] = 0 := by decide
    norm_num [hd, hd0, expPart]

/-- Witness for C1: the default option string parses to the 3×3 identity
kernel with weights in row-major order. -/
theorem c1_witness :
    parse_matrix ( "0,0,0;0,1,0;0,0,0").data [] 0 0 =
      (true, [0, 0, 0, 0, 1, 0, 0, 0, 0], 3, 3) := by
  have henc : encodeMatrix [[['0'], ['0'], ['0']], [['0'], ['1'], ['0']],
      [['0'], ['0'], ['0']]] = ( "0,0,0;0,1,0;0,0,0").data := by decide
  have h := c1_parse_wellformed [[['0'], ['0'], ['0']], [['0'], ['1'], ['0']],
      [['0'], ['0'], ['0']]] 3 (by decide) (by decide)
      (by decide) (by decide) (by decide) (by decide) [] 0 0
  rw [henc] at h
  rw [h]
  simp only [List.map_cons, List.map_nil, List.flatten_cons, List.flatten_nil,
    readFloat_zero, readFloat_one]
  simp

/-- Witness for C5: `"1,2;3"` fails to parse, because row 1 has 1 element
while row 0 had 2. -/
theorem c5_witness : (parse_matrix ( "1,2;3").data [] 0 0).1 = false := by
  apply (c5_parse_fails_iff ( "1,2;3").data [] 0 0 (by decide)).mpr
  exact ⟨1, by decide, by decide⟩

/-- The semicolon split of the string `"1,2;3"`. -/
theorem split123 : cppSplit ';' ['1', ',', '2', ';', '3'] =
    [['1', ',', '2'], ['3']] := by
  decide

/-- The row loop on the rows of `"1,2;3"`: row 0 is consumed (its two
parsed elements pushed), then row 1's element count 1 mismatches the
running width 2 and the loop fails. -/
theorem rows123 : parseRowsAux [['1', ',', '2'], ['3']] UINT_MAX [] =
    (false, 2, [readFloat ['1'], readFloat ['2']]) := by
  have h1 : cppSplit ',' ['1', ',', '2'] = [['1'], ['2']] := by decide
  have h2 : cppSplit ',' ['3'] = [['3']] := by decide
  simp only [parseRowsAux, h1, h2, UINT_MAX]
  norm_num

/-- Parsing `"1,2;3"` returns failure. -/
theorem parse123_fails : (parse_matrix ( "1,2;3").data [] 7 9).1 = false := by
  show (parse_matrix ['1', ',', '2', ';', '3'] [] 7 9).1 = false
  rw [parse_matrix_fst, split123, rows123]

/-- Counterexample for C6: parsing `"1,2;3"` fails, yet the caller's
weight vector is not left unchanged — it has gained the two elements of
row 0 that were pushed before the mismatch was detected. -/
theorem c6_counterexample :
    (parse_matrix ( "1,2;3").data [] 7 9).1 = false ∧
    (parse_matrix ( "1,2;3").data [] 7 9).2.1 ≠ [] := by
  constructor
  · exact parse123_fails
  · show (parse_matrix ['1', ',', '2', ';', '3'] [] 7 9).2.1 ≠ []
    simp only [parse_matrix, split123, rows123]
    simp

/-- Witness for the amended C6, applied at `"1,2;3"` with initial
out-parameter values 7 and 9: they are unchanged on failure and the filter
vector was only appended to. -/
theorem c6_amended_witness :
    (parse_matrix ( "1,2;3").data [] 7 9).2.2.1 = 7 ∧
    (parse_matrix ( "1,2;3").data [] 7 9).2.2.2 = 9 ∧
    ∃ extra, (parse_matrix ( "1,2;3").data [] 7 9).2.1 = [] ++ extra :=
  c6_amended_state_on_error ( "1,2;3").data [] 7 9 parse123_fails

/-! Shader synthesis. -/

/-- `replFuel` never empties a nonempty input when the replacement text is
nonempty. -/
theorem replFuel_ne_nil (pat rep : List Char) (hrep : rep ≠ []) :
    ∀ (fuel : Nat) (l : List Char), l ≠ [] → replFuel pat rep fuel l ≠ [] := by
  intro fuel l hl
  cases l with
  | nil => exact absurd rfl hl
  | cons c rest =>
      cases fuel with
      | zero => simp [replFuel]
      | succ f =>
          simp only [replFuel]
          split
          · intro hcontra
            exact hrep (List.append_eq_nil.mp hcontra).1
          · simp

/-- `listReplace` never empties a nonempty input when the replacement text
is nonempty. -/
theorem listReplace_ne_nil (pat rep l : List Char) (hrep : rep ≠ [])
    (hl : l ≠ []) : listReplace pat rep l ≠ [] :=
  replFuel_ne_nil pat rep hrep l.length l hl

/-- Claim C7: the defensive size check of the shader synthesizer — for
every weight array and 32-bit dimensions whose product stays within
`unsigned int` range, a mismatched `width * height` yields the empty
string and a matching one yields non-empty shader source (for any
template). -/
theorem c7_size_check (tmpl : List Char) (array : List ℚ) (w h : Nat)
    (hp : w * h < 4294967296) :
    (w * h ≠ array.length →
      create_convolution_fragment_shader tmpl array w h = []) ∧
    (w * h = array.length →
      create_convolution_fragment_shader tmpl array w h ≠ []) := by
  have hmod : (w * h) % 4294967296 = w * h := Nat.mod_eq_of_lt hp
  constructor
  · intro hne
    simp only [create_convolution_fragment_shader, hmod]
    rw [if_pos hne]
  · intro heq
    simp only [create_convolution_fragment_shader, hmod]
    rw [if_neg (by simp [heq])]
    apply listReplace_ne_nil
    · simp
    · simp [constLine]

/-- Witness for C7: a 2×1 declaration over a single-element array fails
with empty output, while the matching 1×1 declaration yields non-empty
output. -/
theorem c7_witness :
    create_convolution_fragment_shader effectTemplate [5] 2 1 = [] ∧
    create_convolution_fragment_shader effectTemplate [5] 1 1 ≠ [] := by
  constructor
  · exact (c7_size_check effectTemplate [5] 2 1 (by decide)).1 (by simp)
  · exact (c7_size_check effectTemplate [5] 1 1 (by decide)).2 (by simp)

/-- The declaration side of the coefficient loop is the concatenation of
one `filterDef` per (index, weight) pair, in order. -/
theorem convLoop_fst (w h : Nat) :
    ∀ (l : List ℚ) (i : Nat),
      (convLoop w h l i).1 =
        ((List.enumFrom i l).map fun p => filterDef p.1 p.2).flatten := by
  intro l
  induction l with
  | nil => intro i; simp [convLoop]
  | cons x rest ih =>
      intro i
      simp only [convLoop, List.enumFrom_cons, List.map_cons, List.flatten_cons]
      rw [ih (i + 1)]

/-- The accumulation side of the coefficient loop is one `convTerm` per
index, joined by the `" +\n"` separator. -/
theorem convLoop_snd (w h : Nat) :
    ∀ (l : List ℚ) (i : Nat),
      (convLoop w h l i).2 =
        List.intercalate ( " +\n").data
          ((List.enumFrom i l).map fun p => convTerm w h p.1) := by
  intro l
  induction l with
  | nil => intro i; simp [convLoop, List.intercalate]
  | cons x rest ih =>
      intro i
      cases rest with
      | nil =>
          simp only [convLoop, List.enumFrom_cons, List.map_cons,
            List.enumFrom_nil, List.map_nil]
          rw [intercalate_single]
          simp
      | cons y rest' =>
          have hstep : convLoop w h (x :: y :: rest') i =
              (filterDef i x ++ (convLoop w h (y :: rest') (i + 1)).1,
               convTerm w h i ++
                 (if (y :: rest' : List ℚ) = [] then [] else ( " +\n").data) ++
                 (convLoop w h (y :: rest') (i + 1)).2) := rfl
          rw [hstep]
          simp only [List.enumFrom_cons, List.map_cons]
          rw [intercalate_cons_cons, ih (i + 1)]
          simp [List.append_assoc, List.enumFrom_cons]

/-- Claim C9: for every kernel passing the size check, the synthesized
source is the template with, per coefficient `i` in row-major order, one
`const float Filter<i> = <weight>;` declaration (fixed 6-decimal
notation), and the `$CONVOLUTION$` placeholder replaced by the
accumulation statement `result = t0 + t1 + ...;` where term `ti` samples
`Texture0` at the coordinate offset by
`(offset.x * TextureStepX, offset.y * TextureStepY)` (fixed 1-decimal
notation) and multiplies by `Filter<i>`. -/
theorem c9_shader_structure (tmpl : List Char) (array : List ℚ) (w h : Nat)
    (hsz : (w * h) % 4294967296 = array.length) :
    create_convolution_fragment_shader tmpl array w h =
      listReplace ( "$CONVOLUTION$").data
        (( "result = ").data ++
          List.intercalate ( " +\n").data
            (array.enum.map fun p => convTerm w h p.1) ++ ( ";\n").data)
        (tmpl ++ constLine ( "TextureStepX").data (1 / 800) ++
          constLine ( "TextureStepY").data (1 / 600) ++
          (array.enum.map fun p => filterDef p.1 p.2).flatten) := by
  simp only [create_convolution_fragment_shader]
  rw [if_neg (by simp [hsz])]
  rw [convLoop_fst, convLoop_snd]
  rfl

/-- Evaluation rule for `formatFixedNN` once the scaled-and-rounded value
is known. -/
theorem formatFixedNN_eval (prec : Nat) (q : ℚ) (n : Nat)
    (hfl : Int.floor (q * (10 : ℚ) ^ prec + 1 / 2) = (n : ℤ)) :
    formatFixedNN prec q =
      natRepr (n / 10 ^ prec) ++ '.' ::
        (List.replicate (prec - (natRepr (n % 10 ^ prec)).length) '0' ++
          natRepr (n % 10 ^ prec)) := by
  simp only [formatFixedNN, hfl, Int.toNat_natCast]

/-- Evaluation rule for `formatFixed` on a nonnegative value. -/
theorem formatFixed_nonneg_eval (prec : Nat) (q : ℚ) (n : Nat) (hq : ¬q < 0)
    (hfl : Int.floor (q * (10 : ℚ) ^ prec + 1 / 2) = (n : ℤ)) :
    formatFixed prec q =
      natRepr (n / 10 ^ prec) ++ '.' ::
        (List.replicate (prec - (natRepr (n % 10 ^ prec)).length) '0' ++
          natRepr (n % 10 ^ prec)) := by
  simp only [formatFixed, if_neg hq]
  exact formatFixedNN_eval prec q n hfl

/-- Fixed 1-decimal rendering of the zero offset. -/
theorem formatFixed_one_zero : formatFixed 1 (0 : ℚ) = ['0', '.', '0'] := by
  rw [formatFixed_nonneg_eval 1 0 0 (by norm_num) (by norm_num)]
  decide

/-- Fixed 6-decimal rendering of the coefficient 5. -/
theorem formatFixed_six_five : formatFixed 6 (5 : ℚ) = ( "5.000000").data := by
  rw [formatFixed_nonneg_eval 6 5 5000000 (by norm_num) (by norm_num)]
  decide

/-- Fixed 6-decimal rendering of the horizontal texel step `1/800`. -/
theorem formatFixed_step_x :
    formatFixed 6 (1 / 800 : ℚ) = ( "0.001250").data := by
  rw [formatFixed_nonneg_eval 6 (1 / 800) 1250 (by norm_num)
    (by rw [Int.floor_eq_iff]; norm_num)]
  decide

/-- Fixed 6-decimal rendering of the vertical texel step `1/600`. -/
theorem formatFixed_step_y :
    formatFixed 6 (1 / 600 : ℚ) = ( "0.001667").data := by
  rw [formatFixed_nonneg_eval 6 (1 / 600) 1667 (by norm_num)
    (by rw [Int.floor_eq_iff]; norm_num)]
  decide

set_option maxRecDepth 16384 in
/-- Witness for C9: synthesizing the 1×1 kernel `[5.0]` yields exactly one
accumulation term, at offset `(0,0)`, scaled by the constant `Filter0`
whose declared value is 5.0 (printed `5.000000` in fixed notation). -/
theorem c9_witness :
    create_convolution_fragment_shader effectTemplate [5] 1 1 =
      ( "uniform sampler2D Texture0;\nvarying vec2 TextureCoord;\nvec4 result;\nresult = texture2D(Texture0, TextureCoord + vec2(0.0 * TextureStepX, 0.0 * TextureStepY)) * Filter0;\n\ngl_FragColor = result;\nconst float TextureStepX = 0.001250;\nconst float TextureStepY = 0.001667;\nconst float Filter0 = 5.000000;\n").data := by
  have h := c9_shader_structure effectTemplate [5] 1 1 (by simp)
  rw [h]
  have henum : ([(5 : ℚ)].enum) = [(0, (5 : ℚ))] := rfl
  rw [henum]
  simp only [List.map_cons, List.map_nil, List.flatten_cons, List.flatten_nil]
  rw [intercalate_single]
  have hoff : calc_offset 0 1 1 = (0, 0) := by decide
  have hterm : convTerm 1 1 0 =
      ( "texture2D(Texture0, TextureCoord + vec2(0.0 * TextureStepX, 0.0 * TextureStepY)) * Filter0").data := by
    have hfst : (((0, 0) : Int × Int).1 : ℚ) = 0 := by norm_num
    have hsnd : (((0, 0) : Int × Int).2 : ℚ) = 0 := by norm_num
    simp only [convTerm, hoff, hfst, hsnd, formatFixed_one_zero]
    decide
  have hdef : filterDef 0 (5 : ℚ) =
      ( "const float Filter0 = 5.000000;\n").data := by
    simp only [filterDef, formatFixed_six_five]
    decide
  have hcx : constLine ( "TextureStepX").data (1 / 800) =
      ( "const float TextureStepX = 0.001250;\n").data := by
    simp only [constLine, formatFixed_step_x]
    decide
  have hcy : constLine ( "TextureStepY").data (1 / 600) =
      ( "const float TextureStepY = 0.001667;\n").data := by
    simp only [constLine, formatFixed_step_y]
    decide
  rw [hterm, hdef, hcx, hcy]
  decide

/-- Claim C10: the empty matrix string parses successfully with an empty
weight vector, height 0 and the sentinel width `UINT_MAX`; normalization
leaves it empty; and the synthesis size check passes because the unsigned
product `UINT_MAX * 0` is 0, so no stage of the pipeline rejects it (the
output shader source is non-empty). -/
theorem c10_empty_option :
    parse_matrix [] [] 0 0 = (true, [], UINT_MAX, 0) ∧
    normalize [] = [] ∧
    (UINT_MAX * 0) % 4294967296 = 0 ∧
    create_convolution_fragment_shader effectTemplate [] UINT_MAX 0 ≠ [] := by
  refine ⟨?_, by simp [normalize], by decide, ?_⟩
  · have h0 : cppSplit ';' ([] : List Char) = [] := rfl
    simp [parse_matrix, h0, parseRowsAux]
  · simp only [create_convolution_fragment_shader]
    rw [if_neg (by decide)]
    apply listReplace_ne_nil
    · simp
    · simp [effectTemplate]

end Effect2D
